import Mathlib

/-!
Shallow embedding of the poster-grabber pipeline (`src/grabber.py`, with
`src/main.py` as a near-duplicate).  Python strings are modelled as
`List Char`; the concrete regular expressions used by the source are
implemented as explicit backtracking scanners with the same
leftmost / lazy-quantifier semantics (`.` never matches a newline).
All definitions are translated from the source; the single definition
marked as modelling the claim wording (`claimGalleryImgs`) exists only
to be compared against the source behaviour.
-/

set_option autoImplicit false
set_option maxHeartbeats 1000000

abbrev Str := List Char

/-- ASCII double-quote character (appears in the regex literals of the source). -/
def dquote : Char := Char.ofNat 34

/-- ASCII single-quote character (appears in the regex literals of the source). -/
def squote : Char := Char.ofNat 39

/-- Models Python `sub in s` (substring containment). -/
def isSubstr (pat : Str) : Str → Bool
  | [] => pat.isEmpty
  | s@(_ :: rest) => pat.isPrefixOf s || isSubstr pat rest

/-- Models Python `str.isalnum` on the ASCII range (all strings handled by
the claims are ASCII).  Source: `grabber.py` line 190. -/
def pyIsAlnum (c : Char) : Bool := c.isAlphanum

/-- Models Python `str.lower` on one ASCII character: uppercase letters
(code points 65-90) are shifted by 32, all other characters unchanged. -/
def pyLowerChar (c : Char) : Char :=
  if 65 ≤ c.toNat ∧ c.toNat ≤ 90 then Char.ofNat (c.toNat + 32) else c

/-- Models Python `str.lower` (ASCII range). -/
def pyLower (s : Str) : Str := s.map pyLowerChar

/-- Lazy scan `.*?pat`: the smallest gap of non-newline characters after
which `pat` is a prefix; returns the gap and the rest after `pat`. -/
def lazyUpto (pat : Str) (s : Str) : Option (Str × Str) :=
  if pat.isPrefixOf s then some ([], s.drop pat.length)
  else
    match s with
    | [] => none
    | c :: rest =>
      if c = '\n' then none
      else (lazyUpto pat rest).map fun p => (c :: p.1, p.2)

/-- Fuel-bounded scan for `re.findall(l1 + '.*?' + l2, s)` with literal,
nonempty `l1` and literal `l2`: leftmost scan, lazy gap, continuing after
each match.  Every step consumes at least one character of the input
(for nonempty `l1`), so fuel `s.length + 1` never runs out. -/
def reFindallF (l1 l2 : Str) : Nat → Str → List Str
  | 0, _ => []
  | _, [] => []
  | fuel + 1, a :: rest =>
    if l1.isPrefixOf (a :: rest) then
      match lazyUpto l2 ((a :: rest).drop l1.length) with
      | some (g, r) => (l1 ++ g ++ l2) :: reFindallF l1 l2 fuel r
      | none => reFindallF l1 l2 fuel rest
    else reFindallF l1 l2 fuel rest

/-- Models `re.findall(l1 + '.*?' + l2, s)` for literal, nonempty `l1`
and literal `l2`. -/
def reFindall (l1 l2 : Str) (s : Str) : List Str :=
  reFindallF l1 l2 (s.length + 1) s

/-- Backtracking scan for the group part of the src-extraction
pattern `src=[\x27"](.*?)[\x27"].*?/>`: the input starts right after the
opening quote; the group grows lazily until a quote (either kind) after
which `.*?/>` succeeds.  Returns the captured group and the rest of the
string after the matched `/>`. -/
def srcGroup : Str → Option (Str × Str)
  | [] => none
  | c :: rest =>
    if c = '\n' then none
    else
      let deeper := (srcGroup rest).map fun p => (c :: p.1, p.2)
      if c = squote ∨ c = dquote then
        match lazyUpto ['/', '>'] rest with
        | some p => some ([], p.2)
        | none => deeper
      else deeper

/-- Backtracking scan for the part of the src-extraction pattern after the
literal `<img`: a lazy gap, then `src=`, an opening quote, and `srcGroup`.
Returns the captured group and the rest after the full match. -/
def srcAfterImg : Str → Option (Str × Str)
  | [] => none
  | a :: rest =>
    let next := if a = '\n' then none else srcAfterImg rest
    if ['s', 'r', 'c', '='].isPrefixOf (a :: rest) then
      match (a :: rest).drop 4 with
      | q :: s3 =>
        if q = squote ∨ q = dquote then
          match srcGroup s3 with
          | some p => some p
          | none => next
        else next
      | [] => next
    else next

/-- Fuel-bounded scan for the substitution
`re.sub(r'<img.*?src=[\x27"](.*?)[\x27"].*?/>', r'\g<1>', s)`
(source: `grabber.py` line 84): every match is replaced by its captured
`src` value; text outside matches is copied unchanged.  Every step
consumes at least one character, so fuel `s.length + 1` never runs out. -/
def pySubSrcF : Nat → Str → Str
  | 0, _ => []
  | _, [] => []
  | fuel + 1, a :: rest =>
    if ['<', 'i', 'm', 'g'].isPrefixOf (a :: rest) then
      match srcAfterImg ((a :: rest).drop 4) with
      | some (g, r) => g ++ pySubSrcF fuel r
      | none => a :: pySubSrcF fuel rest
    else a :: pySubSrcF fuel rest

/-- Models `re.sub(r'<img.*?src=[\x27"](.*?)[\x27"].*?/>', r'\g<1>', s)`. -/
def pySubSrc (s : Str) : Str := pySubSrcF (s.length + 1) s

/-- Fuel-bounded scan for `re.sub(r'<title/?>', '', t)` (source:
`grabber.py` line 188): removes every occurrence of `<title>` or
`<title/>`; note that the regex does not match the closing tag
`</title>`.  Every step consumes at least one character, so fuel
`t.length + 1` never runs out. -/
def stripTitleTagsF : Nat → Str → Str
  | 0, _ => []
  | _, [] => []
  | fuel + 1, a :: rest =>
    if ['<', 't', 'i', 't', 'l', 'e', '/', '>'].isPrefixOf (a :: rest) then
      stripTitleTagsF fuel (rest.drop 7)
    else if ['<', 't', 'i', 't', 'l', 'e', '>'].isPrefixOf (a :: rest) then
      stripTitleTagsF fuel (rest.drop 6)
    else a :: stripTitleTagsF fuel rest

/-- Models `re.sub(r'<title/?>', '', t)`. -/
def stripTitleTags (t : Str) : Str := stripTitleTagsF (t.length + 1) t

/-- Models `re.sub(r'(.*?) \(.*', r'\g<1>', t)` for newline-free `t`
(source: `grabber.py` line 189; its input, the content of a matched
title element, never contains a newline): everything from the first
occurrence of a space followed by an opening parenthesis is removed. -/
def stripParen : Str → Str
  | [] => []
  | a :: rest =>
    if [' ', '('].isPrefixOf (a :: rest) then []
    else a :: stripParen rest

/-- Models `re.sub(r'.*(\..*?)$', r'\g<1>', u)` for newline-free `u`
(source: `grabber.py` line 91; its input, an extracted image URL, never
contains a newline): if the string contains a dot, the suffix starting
at the last dot; otherwise (no match) the string unchanged. -/
def pyExtension (u : Str) : Str :=
  if '.' ∈ u then '.' :: (u.reverse.takeWhile (fun c => ¬ (c = '.'))).reverse
  else u

/-- Models Python `file.readlines()`: split into lines, each keeping its
trailing newline; a final line without a terminator is kept as is. -/
def pyReadlines : Str → List Str
  | [] => []
  | c :: rest =>
    if c = '\n' then ['\n'] :: pyReadlines rest
    else
      match pyReadlines rest with
      | [] => [[c]]
      | l :: ls => (c :: l) :: ls

/-- Models the code-collecting loop of `load_movie_metadata`
(source: `grabber.py` lines 167-173): skip lines whose first character is
`#`, strip one trailing newline, and append everything else.  (On the
output of `readlines` every line is nonempty, so the Python indexing
`code[0]` / `code[-1]` never fails; `head?` / `getLast?` model it.) -/
def loadCodes : List Str → List Str
  | [] => []
  | code :: rest =>
    if code.head? = some '#' then loadCodes rest
    else
      (if code.getLast? = some '\n' then code.dropLast else code) :: loadCodes rest

/-- The Identifier Loader applied to a raw line-oriented input. -/
def loadedCodes (input : Str) : List Str := loadCodes (pyReadlines input)

/-- The record built per identifier (source: `grabber.py` lines 14-19). -/
structure MovieMetadata where
  imdb_code : Str
  url : Str
  media_url : Str
  title : Str
deriving DecidableEq, Repr

/-- Result of the page fetch `get_page_html`, an external collaborator:
either the decoded body or a failure (network error, bad decode). -/
inductive FetchResult where
  | failure
  | success (html : Str)
deriving DecidableEq, Repr

/-- Outcome of one iteration of the resolver loop for one identifier:
`skipped` if the fetch exception was caught and the loop continued,
`raised` if an uncaught exception propagates out of `load_movie_metadata`
(e.g. the `IndexError` from `re.findall(...)[0]` on an empty match list),
`ok` if a `MovieMetadata` is appended. -/
inductive ResolveOutcome where
  | skipped
  | raised
  | ok (m : MovieMetadata)
deriving DecidableEq, Repr

def ROOT_URL : Str := "https://www.imdb.com/title/".toList

/-- First match of `re.findall(r'<title>.*?</title>', html)`. -/
def firstTitleElem (html : Str) : Option Str :=
  (reFindall "<title>".toList "</title>".toList html).head?

/-- First match of `re.findall(r'mediaviewer/.*?"', html)`. -/
def firstMediaMatch (html : Str) : Option Str :=
  (reFindall "mediaviewer/".toList [dquote] html).head?

/-- The title-sanitising pipeline of `load_movie_metadata`
(source: `grabber.py` lines 187-190): isolate the first title element,
strip `<title>` tags, drop the trailing parenthetical, and keep only
alphanumeric characters. -/
def extractDisplayTitle (html : Str) : Option Str :=
  (firstTitleElem html).map fun t0 => (stripParen (stripTitleTags t0)).filter pyIsAlnum

/-- One iteration of the resolver loop (source: `grabber.py` lines
177-196), with the fetch result supplied by the environment: a fetch
failure is caught (`except Exception`) and the identifier skipped; after
a successful fetch, an empty `findall` for the title element or the
mediaviewer link makes the Python indexing `[0]` raise an uncaught
`IndexError`. -/
def resolveCode (code : Str) (fetch : FetchResult) : ResolveOutcome :=
  let url := ROOT_URL ++ code ++ ['/']
  match fetch with
  | .failure => .skipped
  | .success html =>
    match extractDisplayTitle html with
    | none => .raised
    | some title =>
      match firstMediaMatch html with
      | none => .raised
      | some m => .ok ⟨code, url, url ++ m.dropLast, title⟩

/-- All matches of `re.findall('<img.*?/>', html)`
(source: `grabber.py` line 83). -/
def findallImgTags (html : Str) : List Str :=
  reFindall "<img".toList "/>".toList html

/-- The filter condition of the comprehension on `grabber.py` line 85,
applied (as in the source) to the text `img` of a whole `<img ... />`
occurrence: `'.jpg' in img or '.png' in img or '//fls-' not in img`. -/
def keepTag (img : Str) : Bool :=
  isSubstr ".jpg".toList img || isSubstr ".png".toList img ||
    !(isSubstr "//fls-".toList img)

/-- The surviving image URLs of a gallery page (source: `grabber.py`
lines 83-85): the comprehension filters the raw `<img ... />` occurrences
by `keepTag` and then rewrites each survivor to its `src` value. -/
def galleryImgs (html : Str) : List Str :=
  ((findallImgTags html).filter keepTag).map pySubSrc

/-- Modelled from the claim wording only (for comparison against
`galleryImgs`): keep an occurrence if and only if its EXTRACTED src URL
contains `.jpg`, or contains `.png`, or lacks `//fls-`. -/
def claimGalleryImgs (html : Str) : List Str :=
  ((findallImgTags html).map pySubSrc).filter keepTag

def POSTERS_DIR : Str := "posters".toList

/-- Models `make_poster_filepath` (source: `grabber.py` lines 40-60):
`os.path.join(POSTERS_DIR, filename + (optionally dot-number) + extension)`. -/
def make_poster_filepath (filename : Str) (extension : Str := [])
    (number : Option Nat := none) : Str :=
  POSTERS_DIR ++ '/' ::
    (filename ++ (match number with
                  | none => []
                  | some n => '.' :: (toString n).toList) ++ extension)

/-- The destination paths produced by the download loop of
`download_posters` (source: `grabber.py` lines 87-100): `counter` starts
at 1 and the number is included only when more than one image survived
(`counter if len(imgs) > 1 else None`). -/
def destPathsAux (title : Str) (many : Bool) : Nat → List Str → List Str
  | _, [] => []
  | counter, u :: rest =>
    make_poster_filepath title (pyExtension u) (if many then some counter else none)
      :: destPathsAux title many (counter + 1) rest

def destPaths (title : Str) (imgs : List Str) : List Str :=
  destPathsAux title (decide (1 < imgs.length)) 1 imgs

/-- Models Python `s.split('.')` (source: `grabber.py` lines 116, 145). -/
def pySplitDot : Str → List Str
  | [] => [[]]
  | c :: rest =>
    if c = '.' then [] :: pySplitDot rest
    else
      match pySplitDot rest with
      | [] => [[c]]
      | f :: fs => (c :: f) :: fs

/-- Insertion-ordered dictionary update, as in Python: re-assigning an
existing key keeps its position, a new key is appended at the end. -/
def dictInsert {α : Type} (k : Str) (v : α) : List (Str × α) → List (Str × α)
  | [] => [(k, v)]
  | (k', v') :: rest =>
    if k' = k then (k', v) :: rest else (k', v') :: dictInsert k v rest

/-- Python dictionary lookup `d[k]` / `k in d` on an insertion-ordered
association list. -/
def dictGet {α : Type} (k : Str) : List (Str × α) → Option α
  | [] => none
  | (k', v) :: rest => if k' = k then some v else dictGet k rest

/-- One iteration of the grouping loop of `choose_keepers` (source:
`grabber.py` lines 111-125): skip `.gitkeep`, skip any name that does not
split on `.` into exactly three fields, and assign
`by_title[split[0]][split[1]] = poster`, overwriting any earlier file
with the same title and number. -/
def groupStep (by_title : List (Str × List (Str × Str))) (poster : Str) :
    List (Str × List (Str × Str)) :=
  if poster = ".gitkeep".toList then by_title
  else
    match pySplitDot poster with
    | [t, n, _] =>
      dictInsert t (dictInsert n poster ((dictGet t by_title).getD [])) by_title
    | _ => by_title

/-- The grouping pass of `choose_keepers` (source: `grabber.py` lines
108-125). -/
def groupPosters (posters : List Str) : List (Str × List (Str × Str)) :=
  posters.foldl groupStep []

/-- The keeper prompt loop of `choose_keepers` (source: `grabber.py`
lines 132-139), driven by the stream of operator answers: the loop exits
with the first answer that is a key of `files`; if no answer in the
stream is a key, the loop never terminates, modelled as `none`. -/
def promptLoop (files : List (Str × Str)) : List Str → Option (Str × List Str)
  | [] => none
  | ans :: rest =>
    if (dictGet ans files).isSome then some (ans, rest) else promptLoop files rest

/-- The per-group reduction of `choose_keepers` (source: `grabber.py`
lines 141-147): delete every file of the group except the keepers, then
rename the keepers file to `first_field.third_field`.  The disk is the
list of filenames in the posters directory (the constant `posters/`
prefix added by `make_poster_filepath` is common to every operation and
is dropped); `os.rename` replaces an existing file of the target name. -/
def reduceGroup (files : List (Str × Str)) (keeper : Str) (disk : List Str) :
    List Str :=
  let disk1 := files.foldl
    (fun d p => if p.1 ≠ keeper then d.filter (fun f => ¬ (f = p.2)) else d) disk
  match dictGet keeper files with
  | none => disk1
  | some kf =>
    match pySplitDot kf with
    | [t, _, e] =>
      let newName := t ++ '.' :: e
      (disk1.filter fun f => ¬ (f = kf) ∧ ¬ (f = newName)) ++ [newName]
    | _ => disk1

/-- The interactive loop over the groups of `choose_keepers` (source:
`grabber.py` lines 127-147), threading the answer stream and the disk. -/
def runGroups : List (Str × List (Str × Str)) → List Str → List Str →
    Option (List Str)
  | [], _, disk => some disk
  | (_, files) :: groups, inputs, disk =>
    match promptLoop files inputs with
    | none => none
    | some (keeper, rest) => runGroups groups rest (reduceGroup files keeper disk)

/-- `choose_keepers` (source: `grabber.py` lines 103-147): the directory
listing is both the grouping input and the initial disk contents;
`inputs` is the stream of operator answers.  `none` means the prompt
loop blocked forever on some group. -/
def chooseKeepers (disk : List Str) (inputs : List Str) : Option (List Str) :=
  runGroups (groupPosters disk) inputs disk

/-- The end-of-run gate (source: `grabber.py` lines 207-209):
`choose_keepers()` runs iff `choice.lower() != 'n'`. -/
def selectorRuns (choice : Str) : Bool := decide (pyLower choice ≠ ['n'])

/-! Helper lemmas shared by the claim theorems. -/

theorem getLast?_mem_of_some {l : Str} {x : Char} (h : l.getLast? = some x) :
    x ∈ l := by
  cases l with
  | nil => simp at h
  | cons a t =>
    have hl : (a :: t).getLast (by simp) ∈ a :: t := List.getLast_mem (by simp)
    rw [List.getLast?_eq_getLast (a :: t) (by simp)] at h
    simp at h
    rwa [h] at hl

theorem pyLowerChar_eq_n (c : Char) :
    pyLowerChar c = 'n' ↔ c = 'n' ∨ c = 'N' := by
  constructor
  · intro h
    rw [pyLowerChar] at h
    split at h
    · rename_i hrange
      obtain ⟨h65, h90⟩ := hrange
      obtain ⟨v, hv⟩ : ∃ v, v = c.toNat := ⟨c.toNat, rfl⟩
      rw [← hv] at h65 h90 h
      interval_cases v <;>
        first
          | exact absurd h (by decide)
          | (right
             have h2 := Char.ofNat_toNat c
             rw [← hv] at h2
             exact h2.symm.trans (by decide))
    · exact Or.inl h
  · intro h
    rcases h with h | h <;> subst h <;> decide

theorem pyReadlines_lines (s : Str) :
    ∀ l ∈ pyReadlines s, l ≠ [] ∧ ∀ c ∈ l.dropLast, c ≠ '\n' := by
  induction s with
  | nil => simp [pyReadlines]
  | cons a rest ih =>
    intro l hl
    rw [pyReadlines] at hl
    split at hl
    · rcases List.mem_cons.mp hl with hl | hl
      · subst hl
        exact ⟨by simp, by simp⟩
      · exact ih l hl
    · rename_i ha
      split at hl
      · rename_i hnil
        rcases List.mem_cons.mp hl with hl | hl
        · subst hl
          exact ⟨by simp, by simp⟩
        · simp at hl
      · rename_i l0 ls heq
        rcases List.mem_cons.mp hl with hl | hl
        · subst hl
          have hl0 : l0 ∈ pyReadlines rest := by rw [heq]; simp
          obtain ⟨hne, hall⟩ := ih l0 hl0
          refine ⟨by simp, ?_⟩
          rw [List.dropLast_cons_of_ne_nil hne]
          intro c hc
          rcases List.mem_cons.mp hc with hc | hc
          · subst hc; exact ha
          · exact hall c hc
        · have : l ∈ pyReadlines rest := by rw [heq]; exact List.mem_cons_of_mem _ hl
          exact ih l this

theorem loadCodes_mem (lines : List Str)
    (hinv : ∀ l ∈ lines, l ≠ [] ∧ ∀ c ∈ l.dropLast, c ≠ '\n') :
    ∀ code ∈ loadCodes lines,
      code.head? ≠ some '#' ∧ code.getLast? ≠ some '\n' := by
  induction lines with
  | nil => simp [loadCodes]
  | cons l rest ih =>
    have hrest : ∀ l' ∈ rest, l' ≠ [] ∧ ∀ c ∈ l'.dropLast, c ≠ '\n' :=
      fun l' h' => hinv l' (List.mem_cons_of_mem _ h')
    obtain ⟨hlne, hldrop⟩ := hinv l (by simp)
    intro code hc
    rw [loadCodes] at hc
    split at hc
    · exact ih hrest code hc
    · rename_i hhead
      rcases List.mem_cons.mp hc with hc | hc
      · subst hc
        split
        · rename_i hlast
          constructor
          · cases l with
            | nil => simp
            | cons x t =>
              cases t with
              | nil => simp
              | cons y u =>
                rw [List.dropLast_cons_of_ne_nil (by simp)]
                simpa using fun hx => hhead (by simp [hx])
          · intro hcon
            exact absurd rfl
              (hldrop '\n' (getLast?_mem_of_some hcon))
        · rename_i hlast
          exact ⟨hhead, hlast⟩
      · exact ih hrest code hc

theorem mem_dictInsert {α : Type} (k : Str) (v : α) :
    ∀ (d : List (Str × α)) (x : Str × α),
      x ∈ dictInsert k v d → x = (k, v) ∨ x ∈ d := by
  intro d
  induction d with
  | nil => intro x hx; simp [dictInsert] at hx; exact Or.inl hx
  | cons p rest ih =>
    intro x hx
    obtain ⟨k0, v0⟩ := p
    rw [dictInsert] at hx
    split at hx
    · rename_i hk
      rcases List.mem_cons.mp hx with hx | hx
      · subst hk
        exact Or.inl (by simpa using hx)
      · exact Or.inr (List.mem_cons_of_mem _ hx)
    · rcases List.mem_cons.mp hx with hx | hx
      · exact Or.inr (by simp [hx])
      · rcases ih x hx with hx | hx
        · exact Or.inl hx
        · exact Or.inr (List.mem_cons_of_mem _ hx)

theorem dictGet_mem {α : Type} (k : Str) :
    ∀ (d : List (Str × α)) (v : α), dictGet k d = some v → (k, v) ∈ d := by
  intro d
  induction d with
  | nil => intro v hv; simp [dictGet] at hv
  | cons p rest ih =>
    intro v hv
    obtain ⟨k0, v0⟩ := p
    rw [dictGet] at hv
    split at hv
    · rename_i hk
      simp only [Option.some.injEq] at hv
      subst hk
      subst hv
      simp
    · exact List.mem_cons_of_mem _ (ih v hv)

theorem groupStep_inv (acc : List (Str × List (Str × Str))) (poster : Str)
    (hinv : ∀ t g, (t, g) ∈ acc → ∀ k v, (k, v) ∈ g →
      (pySplitDot v).length = 3) :
    ∀ t g, (t, g) ∈ groupStep acc poster → ∀ k v, (k, v) ∈ g →
      (pySplitDot v).length = 3 := by
  intro t g hg k v hkv
  rw [groupStep] at hg
  split at hg
  · exact hinv t g hg k v hkv
  · split at hg
    · rename_i t0 n0 e0 hsplit
      rcases mem_dictInsert _ _ _ _ hg with hg | hg
      · injection hg with ht hgrp
        subst hgrp
        rcases mem_dictInsert _ _ _ _ hkv with hkv | hkv
        · injection hkv with hk hv
          subst hv
          rw [hsplit]
          rfl
        · rcases hget : dictGet t0 acc with g0 | g0
          · rw [hget] at hkv
            simp at hkv
          · rw [hget] at hkv
            simp only [Option.getD_some] at hkv
            exact hinv t0 g0 (dictGet_mem _ _ _ hget) k v hkv
      · exact hinv t g hg k v hkv
    · exact hinv t g hg k v hkv

theorem groupPosters_fields (listing : List Str) :
    ∀ t g, (t, g) ∈ groupPosters listing → ∀ k v, (k, v) ∈ g →
      (pySplitDot v).length = 3 := by
  rw [groupPosters]
  have haux : ∀ (l : List Str) (acc : List (Str × List (Str × Str))),
      (∀ t g, (t, g) ∈ acc → ∀ k v, (k, v) ∈ g → (pySplitDot v).length = 3) →
      ∀ t g, (t, g) ∈ l.foldl groupStep acc → ∀ k v, (k, v) ∈ g →
        (pySplitDot v).length = 3 := by
    intro l
    induction l with
    | nil => intro acc hacc; simpa using hacc
    | cons p rest ih =>
      intro acc hacc
      simp only [List.foldl_cons]
      exact ih (groupStep acc p) (groupStep_inv acc p hacc)
  exact haux listing [] (by simp)

theorem destPathsAux_getElem (title : Str) (many : Bool) :
    ∀ (l : List Str) (n i : Nat),
      (destPathsAux title many n l)[i]? =
        (l[i]?).map fun u =>
          make_poster_filepath title (pyExtension u)
            (if many then some (n + i) else none) := by
  intro l
  induction l with
  | nil => intro n i; simp [destPathsAux]
  | cons u rest ih =>
    intro n i
    cases i with
    | zero => simp [destPathsAux]
    | succ j =>
      rw [destPathsAux]
      rw [List.getElem?_cons_succ, List.getElem?_cons_succ, ih (n + 1) j]
      have : n + 1 + j = n + (j + 1) := by omega
      rw [this]

theorem takeWhile_all_stop (p : Char → Bool) :
    ∀ (xs : Str) (y : Char) (ys : Str),
      (∀ x ∈ xs, p x = true) → p y = false →
      (xs ++ y :: ys).takeWhile p = xs := by
  intro xs
  induction xs with
  | nil =>
    intro y ys _ hy
    simp [List.takeWhile_cons, hy]
  | cons x t ih =>
    intro y ys hall hy
    have hx : p x = true := hall x (by simp)
    simp only [List.cons_append, List.takeWhile_cons, hx, if_true]
    rw [ih y ys (fun z hz => hall z (List.mem_cons_of_mem _ hz)) hy]

theorem pyExtension_last_dot (a b : Str) (hb : '.' ∉ b) :
    pyExtension (a ++ '.' :: b) = '.' :: b := by
  rw [pyExtension]
  rw [if_pos (by simp)]
  have hrev : (a ++ '.' :: b).reverse = b.reverse ++ '.' :: a.reverse := by
    simp
  rw [hrev]
  rw [takeWhile_all_stop _ b.reverse '.' a.reverse ?hall (by simp)]
  · simp
  · intro x hx
    simp only [List.mem_reverse] at hx
    simp only [decide_eq_true_eq]
    intro hcon
    exact hb (hcon ▸ hx)

theorem pySplitDot_no_dot (a : Str) (ha : '.' ∉ a) : pySplitDot a = [a] := by
  induction a with
  | nil => rfl
  | cons c rest ih =>
    rw [pySplitDot]
    rw [if_neg (by intro hc; exact ha (by simp [hc]))]
    rw [ih (fun hc => ha (List.mem_cons_of_mem _ hc))]

theorem pySplitDot_append (a r : Str) (ha : '.' ∉ a) :
    pySplitDot (a ++ '.' :: r) = a :: pySplitDot r := by
  induction a with
  | nil =>
    simp only [List.nil_append]
    rw [pySplitDot, if_pos rfl]
  | cons c rest ih =>
    simp only [List.cons_append]
    rw [pySplitDot]
    rw [if_neg (by intro hc; exact ha (by simp [hc]))]
    rw [ih (fun hc => ha (List.mem_cons_of_mem _ hc))]

/-! The claim theorems. -/

/-- Claim C1, counterexample: a successfully fetched page body with no
title-element match does NOT make the resolver skip; the Python indexing
`re.findall(...)[0]` raises an uncaught IndexError that propagates to the
caller, contradicting the claim that resolution never crashes the run on
an unexpected page shape. -/
theorem resolver_missing_markup_raises_cex :
    firstTitleElem "<html></html>".toList = none ∧
      resolveCode "tt2".toList (FetchResult.success "<html></html>".toList) =
        ResolveOutcome.raised := by
  constructor <;> decide

/-- Claim C1 (amended): only the page FETCH is guarded by try/except --
a fetch failure is reported and the identifier skipped without an
exception; but if the fetched body has no title-element match or no
mediaviewer match, an uncaught IndexError is raised to the caller
(aborting the run). -/
theorem resolver_fetch_skip_extraction_raise (code html : Str)
    (h : firstTitleElem html = none ∨ firstMediaMatch html = none) :
    resolveCode code FetchResult.failure = ResolveOutcome.skipped ∧
      resolveCode code (FetchResult.success html) = ResolveOutcome.raised := by
  refine ⟨rfl, ?_⟩
  rcases h with h | h
  · simp [resolveCode, extractDisplayTitle, h]
  · cases hT : extractDisplayTitle html with
    | none => simp [resolveCode, hT]
    | some t => simp [resolveCode, hT, h]

theorem resolver_fetch_skip_extraction_raise_w :
    resolveCode "tt1".toList FetchResult.failure = ResolveOutcome.skipped ∧
      resolveCode "tt1".toList (FetchResult.success "no markup here".toList) =
        ResolveOutcome.raised :=
  resolver_fetch_skip_extraction_raise "tt1".toList "no markup here".toList
    (Or.inl (by decide))

/-- Claim C2, counterexample: the answer `no` begins with `n`, so the
claim says the Selector phase is skipped; the code compares
`choice.lower() != 'n'` by full-string equality, so for `no` the
Selector phase RUNS. -/
theorem selector_gate_cex : selectorRuns "no".toList = true := by decide

/-- Claim C2 (amended): the Keeper Selector phase is skipped if and only
if the answer is exactly the single character `n` or `N`; every other
answer (including any longer answer beginning with `n`/`N`) runs it. -/
theorem selector_skip_iff_exact_n (choice : Str) :
    selectorRuns choice = false ↔ choice = ['n'] ∨ choice = ['N'] := by
  rw [selectorRuns]
  simp only [decide_eq_false_iff_not, ne_eq, not_not]
  constructor
  · intro h
    cases choice with
    | nil => simp [pyLower] at h
    | cons a rest =>
      rw [pyLower] at h
      simp only [List.map_cons, List.cons.injEq] at h
      obtain ⟨ha, hrest⟩ := h
      have hre : rest = [] := by simpa using hrest
      subst hre
      rcases (pyLowerChar_eq_n a).mp ha with h | h <;> simp [h]
  · intro h
    rcases h with h | h <;> subst h <;> decide

/-- A gallery page consisting of one image tag whose attribute text
contains `.jpg` but whose src URL is a `//fls-` tracking location. -/
def flsTag : Str :=
  "<img data=".toList ++ [dquote] ++ "a.jpg".toList ++ [dquote] ++
    " src=".toList ++ [dquote] ++ "//fls-a/t".toList ++ [dquote] ++ " />".toList

/-- Claim C3, counterexample: the code keeps this occurrence (its TAG
text contains `.jpg`), although its extracted src URL `//fls-a/t` fails
the three-way condition; filtering by the URL (the claim wording,
`claimGalleryImgs`) would discard it.  The keep decision therefore
depends on tag text other than the URL. -/
theorem gallery_filter_on_tag_cex :
    galleryImgs flsTag = ["//fls-a/t".toList] ∧
      keepTag "//fls-a/t".toList = false ∧
      claimGalleryImgs flsTag = [] := by
  refine ⟨by decide, by decide, by decide⟩

/-- Claim C3 (amended): an image-element occurrence is kept if and only
if the WHOLE tag text contains `.jpg`, or contains `.png`, or does not
contain `//fls-`; the surviving occurrences are then rewritten to their
src values. -/
theorem gallery_keep_iff_tag_text (html u : Str) :
    u ∈ galleryImgs html ↔
      ∃ tag, tag ∈ findallImgTags html ∧ keepTag tag = true ∧
        pySubSrc tag = u := by
  simp only [galleryImgs, List.mem_map, List.mem_filter]
  constructor
  · rintro ⟨tag, ⟨h1, h2⟩, h3⟩
    exact ⟨tag, h1, h2, h3⟩
  · rintro ⟨tag, h1, h2, h3⟩
    exact ⟨tag, ⟨h1, h2⟩, h3⟩

/-- Claim C4, counterexample: a blank line (`"\n"`) is not filtered: the
loader strips its newline and appends the empty string, so the output
contains an empty Identifier. -/
theorem loader_blank_line_cex : loadedCodes ['\n'] = [[]] := by decide

/-- Claim C4 (amended): no produced element has `#` as first character
and none ends with a line terminator, but blank lines are NOT filtered:
they produce empty-string identifiers (see the counterexample). -/
theorem loader_filters_comments_and_newlines (input code : Str)
    (h : code ∈ loadedCodes input) :
    code.head? ≠ some '#' ∧ code.getLast? ≠ some '\n' :=
  loadCodes_mem (pyReadlines input) (pyReadlines_lines input) code h

theorem loader_filters_comments_and_newlines_w :
    ("tt1".toList).head? ≠ some '#' ∧ ("tt1".toList).getLast? ≠ some '\n' :=
  loader_filters_comments_and_newlines "#a\ntt1\n".toList "tt1".toList
    (by decide)

/-- Claim C5: for the group of three posters of title `Dune` with keeper
answer `2` whose file is `Dune.2.png`, the reduction leaves exactly one
file, `Dune.png` (extension preserved, number field dropped), and the
other two original files no longer exist. -/
theorem choose_keepers_group_of_three :
    chooseKeepers
        ["Dune.1.jpg".toList, "Dune.2.png".toList, "Dune.3.jpg".toList]
        ["2".toList] =
      some ["Dune.png".toList] := by decide

/-- Claim C6: the keeper prompt loop terminates only with an answer that
is exactly (by string comparison) one of the group keys, and any finite
prefix of invalid answers leaves the loop state unchanged -- there is no
bound or timeout on re-prompts. -/
theorem prompt_loop_exact_key_unbounded (files : List (Str × Str)) :
    (∀ (inputs : List Str) (keeper : Str) (rest : List Str),
        promptLoop files inputs = some (keeper, rest) →
        (dictGet keeper files).isSome = true) ∧
    (∀ (pre inputs : List Str), (∀ a ∈ pre, dictGet a files = none) →
        promptLoop files (pre ++ inputs) = promptLoop files inputs) := by
  constructor
  · intro inputs
    induction inputs with
    | nil => intro keeper rest h; simp [promptLoop] at h
    | cons ans tl ih =>
      intro keeper rest h
      rw [promptLoop] at h
      split at h
      · rename_i hsome
        simp only [Option.some.injEq, Prod.mk.injEq] at h
        obtain ⟨h1, -⟩ := h
        subst h1
        exact hsome
      · exact ih keeper rest h
  · intro pre
    induction pre with
    | nil => intro inputs _; simp
    | cons a tl ih =>
      intro inputs hinv
      rw [List.cons_append, promptLoop]
      rw [if_neg (by simp [hinv a (by simp)])]
      exact ih inputs fun x hx => hinv x (List.mem_cons_of_mem _ hx)

/-- The poster group used to instantiate the prompt-loop theorem. -/
def demoFiles : List (Str × Str) :=
  [("1".toList, "Dune.1.jpg".toList), ("2".toList, "Dune.2.png".toList),
    ("3".toList, "Dune.3.jpg".toList)]

theorem prompt_loop_exact_key_unbounded_w :
    (dictGet "2".toList demoFiles).isSome = true ∧
      promptLoop demoFiles (["5".toList, "01".toList] ++ ["2".toList]) =
        promptLoop demoFiles ["2".toList] :=
  ⟨(prompt_loop_exact_key_unbounded demoFiles).1
      ["5".toList, "01".toList, "2".toList] "2".toList [] (by decide),
    (prompt_loop_exact_key_unbounded demoFiles).2
      ["5".toList, "01".toList] ["2".toList] (by decide)⟩

/-- Claim C7: with more than one surviving image the destination path at
position `i` carries sequence number `i + 1` (1-based, discovery order)
and the extension `pyExtension` of that URL; with exactly one surviving
image the number is omitted; the extension is the final dot-delimited
suffix of the URL; and the concrete examples of the claim hold. -/
theorem dest_paths_numbering_and_extension (title a b : Str)
    (imgs : List Str) (i : Nat) (hmany : 1 < imgs.length) (hb : '.' ∉ b) :
    (destPaths title imgs)[i]? =
      (imgs[i]?).map (fun u =>
        make_poster_filepath title (pyExtension u) (some (i + 1))) ∧
    (∀ u : Str, destPaths title [u] =
      [make_poster_filepath title (pyExtension u) none]) ∧
    pyExtension (a ++ '.' :: b) = '.' :: b ∧
    destPaths "Dune".toList
        ["u/x.jpg".toList, "u/y.jpg".toList, "u/z.png".toList] =
      ["posters/Dune.1.jpg".toList, "posters/Dune.2.jpg".toList,
        "posters/Dune.3.png".toList] ∧
    destPaths "Dune".toList ["u/z.png".toList] =
      ["posters/Dune.png".toList] := by
  refine ⟨?_, ?_, pyExtension_last_dot a b hb, by decide, by decide⟩
  · rw [destPaths, destPathsAux_getElem]
    have hd : decide (1 < imgs.length) = true := decide_eq_true hmany
    simp [hd, Nat.add_comm]
  · intro u
    rw [destPaths]
    rfl

theorem dest_paths_numbering_and_extension_w :
    (destPaths "Dune".toList
        ["u/x.jpg".toList, "u/y.jpg".toList, "u/z.png".toList])[0]? =
      ((["u/x.jpg".toList, "u/y.jpg".toList, "u/z.png".toList])[0]?).map
        (fun u => make_poster_filepath "Dune".toList (pyExtension u)
          (some (0 + 1))) ∧
    (∀ u : Str, destPaths "Dune".toList [u] =
      [make_poster_filepath "Dune".toList (pyExtension u) none]) ∧
    pyExtension ("u/x".toList ++ '.' :: "jpg".toList) = '.' :: "jpg".toList ∧
    destPaths "Dune".toList
        ["u/x.jpg".toList, "u/y.jpg".toList, "u/z.png".toList] =
      ["posters/Dune.1.jpg".toList, "posters/Dune.2.jpg".toList,
        "posters/Dune.3.png".toList] ∧
    destPaths "Dune".toList ["u/z.png".toList] =
      ["posters/Dune.png".toList] :=
  dest_paths_numbering_and_extension "Dune".toList "u/x".toList "jpg".toList
    ["u/x.jpg".toList, "u/y.jpg".toList, "u/z.png".toList] 0
    (by decide) (by decide)

/-- Claim C8: the Selector grouping maps the example directory contents
to the example group (with `Marsx.png`, two fields, in no group), and in
general every filename recorded in any group splits on `.` into exactly
three fields -- so a file that does not is excluded from every group and
ignored by the reduction pass. -/
theorem group_posters_fields_and_example (listing : List Str)
    (t k v : Str) (g : List (Str × Str))
    (hg : (t, g) ∈ groupPosters listing) (hkv : (k, v) ∈ g) :
    (pySplitDot v).length = 3 ∧
    groupPosters
        ["Dune.1.jpg".toList, "Dune.2.png".toList, "Marsx.png".toList] =
      [("Dune".toList,
        [("1".toList, "Dune.1.jpg".toList),
          ("2".toList, "Dune.2.png".toList)])] :=
  ⟨groupPosters_fields listing t g hg k v hkv, by decide⟩

theorem group_posters_fields_and_example_w :
    (pySplitDot "Dune.1.jpg".toList).length = 3 ∧
    groupPosters
        ["Dune.1.jpg".toList, "Dune.2.png".toList, "Marsx.png".toList] =
      [("Dune".toList,
        [("1".toList, "Dune.1.jpg".toList),
          ("2".toList, "Dune.2.png".toList)])] :=
  group_posters_fields_and_example
    ["Dune.1.jpg".toList, "Dune.2.png".toList, "Marsx.png".toList]
    "Dune".toList "1".toList "Dune.1.jpg".toList
    [("1".toList, "Dune.1.jpg".toList), ("2".toList, "Dune.2.png".toList)]
    (by decide) (by decide)

/-- Claim C9: whenever the title-element pattern matches, the extracted
display title contains only alphanumeric characters, and on the
title element of the claim it equals `BladeRunner`. -/
theorem display_title_alnum (html t : Str)
    (h : extractDisplayTitle html = some t) :
    (∀ c ∈ t, pyIsAlnum c = true) ∧
    extractDisplayTitle "<title>Blade Runner (1982) - IMDb</title>".toList =
      some "BladeRunner".toList := by
  refine ⟨?_, by decide⟩
  intro c hc
  rw [extractDisplayTitle] at h
  cases hT : firstTitleElem html with
  | none => rw [hT] at h; simp at h
  | some t0 =>
    rw [hT] at h
    simp only [Option.map_some', Option.some.injEq] at h
    subst h
    exact List.of_mem_filter hc

theorem display_title_alnum_w :
    (∀ c ∈ "BladeRunner".toList, pyIsAlnum c = true) ∧
    extractDisplayTitle "<title>Blade Runner (1982) - IMDb</title>".toList =
      some "BladeRunner".toList :=
  display_title_alnum "<title>Blade Runner (1982) - IMDb</title>".toList
    "BladeRunner".toList (by decide)

theorem groupStep_three (acc : List (Str × List (Str × Str)))
    (poster t n e : Str) (hgit : ¬ poster = ".gitkeep".toList)
    (hsplit : pySplitDot poster = [t, n, e]) :
    groupStep acc poster =
      dictInsert t (dictInsert n poster ((dictGet t acc).getD [])) acc := by
  rw [groupStep, if_neg hgit, hsplit]

/-- Claim C10: two files with the same title and sequence fields but
different extensions; the grouping records only the later one in
directory order, and after reducing the group (keeper = the only key),
the shadowed earlier file is neither deleted nor renamed and is still on
disk, while the recorded file has been renamed to drop its number. -/
theorem shadowed_poster_survives (t k e1 e2 : Str)
    (ht : '.' ∉ t) (hk : '.' ∉ k) (he1 : '.' ∉ e1) (he2 : '.' ∉ e2)
    (hne : e1 ≠ e2) :
    groupPosters [t ++ '.' :: (k ++ '.' :: e1), t ++ '.' :: (k ++ '.' :: e2)] =
      [(t, [(k, t ++ '.' :: (k ++ '.' :: e2))])] ∧
    chooseKeepers
        [t ++ '.' :: (k ++ '.' :: e1), t ++ '.' :: (k ++ '.' :: e2)] [k] =
      some [t ++ '.' :: (k ++ '.' :: e1), t ++ '.' :: e2] := by
  set n1 := t ++ '.' :: (k ++ '.' :: e1) with hn1def
  set n2 := t ++ '.' :: (k ++ '.' :: e2) with hn2def
  have hsplit1 : pySplitDot n1 = [t, k, e1] := by
    rw [hn1def, pySplitDot_append t _ ht, pySplitDot_append k _ hk,
      pySplitDot_no_dot e1 he1]
  have hsplit2 : pySplitDot n2 = [t, k, e2] := by
    rw [hn2def, pySplitDot_append t _ ht, pySplitDot_append k _ hk,
      pySplitDot_no_dot e2 he2]
  have hgit1 : ¬ (n1 = ".gitkeep".toList) := by
    intro hcon
    rw [hcon] at hsplit1
    have h2 : (pySplitDot ".gitkeep".toList).length = 2 := by decide
    rw [hsplit1] at h2
    simp at h2
  have hgit2 : ¬ (n2 = ".gitkeep".toList) := by
    intro hcon
    rw [hcon] at hsplit2
    have h2 : (pySplitDot ".gitkeep".toList).length = 2 := by decide
    rw [hsplit2] at h2
    simp at h2
  have hn12 : ¬ (n1 = n2) := by
    intro hcon
    apply hne
    rw [hn1def, hn2def] at hcon
    have h1 := List.append_cancel_left hcon
    injection h1 with h1a h2
    have h3 := List.append_cancel_left h2
    injection h3 with h3a h4
  have hnew : ¬ (n1 = t ++ '.' :: e2) := by
    intro hcon
    rw [hn1def] at hcon
    have h1 := List.append_cancel_left hcon
    injection h1 with h1a h2
    apply he2
    rw [← h2]
    simp
  have hgp : groupPosters [n1, n2] = [(t, [(k, n2)])] := by
    rw [groupPosters]
    simp only [List.foldl_cons, List.foldl_nil]
    rw [groupStep_three [] n1 t k e1 hgit1 hsplit1]
    have hstep1 :
        dictInsert t
            (dictInsert k n1
              ((dictGet t ([] : List (Str × List (Str × Str)))).getD []))
            [] =
          [(t, [(k, n1)])] := rfl
    rw [hstep1]
    rw [groupStep_three [(t, [(k, n1)])] n2 t k e2 hgit2 hsplit2]
    simp [dictGet, dictInsert]
  have hdg : dictGet k [(k, n2)] = some n2 := by simp [dictGet]
  have hpl : promptLoop [(k, n2)] [k] = some (k, []) := by
    rw [promptLoop]
    simp [hdg]
  have hred : reduceGroup [(k, n2)] k [n1, n2] = [n1, t ++ '.' :: e2] := by
    simp only [reduceGroup, List.foldl_cons, List.foldl_nil, hdg, hsplit2]
    rw [if_neg (by simp)]
    simp [List.filter_cons, hn12, hnew]
  refine ⟨hgp, ?_⟩
  rw [chooseKeepers, hgp]
  simp only [runGroups, hpl, hred]

theorem shadowed_poster_survives_w :
    groupPosters ["Dune.1.jpg".toList, "Dune.1.png".toList] =
      [("Dune".toList, [("1".toList, "Dune.1.png".toList)])] ∧
    chooseKeepers ["Dune.1.jpg".toList, "Dune.1.png".toList] ["1".toList] =
      some ["Dune.1.jpg".toList, "Dune.png".toList] :=
  shadowed_poster_survives "Dune".toList "1".toList "jpg".toList "png".toList
    (by decide) (by decide) (by decide) (by decide) (by decide)
